import Mathlib

/-!
Verification of the rainbow fan-out relay repository against its
specification.  The definitions below are shallow embeddings of the Go
source: the `cmd/rainbow` entrypoint (flag defaults, splitter
configuration construction, run control flow), the automod `Effects`
accumulator, and the PDS stub HTTP handlers.  Components of the
repository whose implementation is not part of the provided sources
(the persistent event cache GC and the subscriber replay/live state
machine) are modelled from the specification and marked as such.
-/

namespace Rainbow

/-! ## CLI flag defaults (run, src/unnamed/part_000 lines 46-91) -/

def crawlInsecureWsDefault : Bool := false

def splitterHostDefault : String := "bsky.network"

def persistDbDefault : String := "./rainbow.db"

def cursorFileDefault : String := "./rainbow-cursor"

def apiListenDefault : String := ":2480"

def metricsListenDefault : String := ":2481"

/-- Default of the persist-hours float flag: `Value: 24 * 7`. -/
def persistHoursDefault : ℚ := 24 * 7

/-- Default of the persist-bytes int64 flag: `Value: 0`. -/
def persistBytesDefault : Int := 0

/-! ## Splitter configuration construction (Splitter, lines 140-165) -/

/-- `time.Hour` in nanoseconds, as an exact rational. -/
def hourNanos : ℚ := 3600 * 1000000000

/-- `time.Minute` in nanoseconds. -/
def minuteNanos : Int := 60 * 1000000000

/-- Truncation of a rational toward zero: Go's conversion of a float64
to the integer (nanosecond) `time.Duration` type. -/
def ratTrunc (q : ℚ) : Int := Int.tdiv q.num q.den

/-- The `PersistDuration` field:
`time.Duration(float64(time.Hour) * cctx.Float64("persist-hours"))`,
in nanoseconds.  The float64 product is modelled as exact rational
multiplication, which agrees with the program exactly when the true
product of the (float64-representable) flag value with 3.6e12 is itself
float64-representable — in particular whenever it is an integer of
magnitude at most 2^53, and for products like 219726562.5 whose
mantissa fits in 53 bits; round-to-nearest then returns the exact
product and only the final truncation remains.  Theorems below invoke
this definition only in that rounding-free regime. -/
def persistDurationOf (persistHours : ℚ) : Int := ratTrunc (hourNanos * persistHours)

/-- The `MaxBytes` field: Go's `uint64(x)` conversion of the signed
64-bit persist-bytes flag value, i.e. reduction modulo 2^64. -/
def maxBytesOf (persistBytes : Int) : Nat := (persistBytes % (2 ^ 64 : Int)).toNat

/-- `events.PebblePersistOptions` as populated by the Splitter action. -/
structure PebblePersistOptions where
  dbPath : String
  persistDuration : Int
  gcPeriod : Int
  maxBytes : Nat
deriving Repr, DecidableEq

/-- `splitter.SplitterConfig` as populated by the Splitter action:
`PebbleOptions` is a nullable pointer, embedded as an `Option`. -/
structure SplitterConfig where
  upstreamHost : String
  cursorFile : String
  pebbleOptions : Option PebblePersistOptions
deriving Repr, DecidableEq

/-- Lines 140-165 of the Splitter action: construction of the
configuration handed to `splitter.NewSplitter`.  The crawl-insecure-ws
flag value is in scope (first argument) but, exactly as in the source,
it does not flow into the constructed configuration. -/
def buildSplitterConfig (crawlInsecureWs : Bool)
    (splitterHost persistDb cursorFile : String)
    (persistHours : ℚ) (persistBytes : Int) : SplitterConfig :=
  if persistDb ≠ "" then
    { upstreamHost := splitterHost
      cursorFile := cursorFile
      pebbleOptions := some
        { dbPath := persistDb
          persistDuration := persistDurationOf persistHours
          gcPeriod := 5 * minuteNanos
          maxBytes := maxBytesOf persistBytes } }
  else
    { upstreamHost := splitterHost
      cursorFile := cursorFile
      pebbleOptions := none }

/-! ## Run control flow and exit codes (run lines 39-98, Splitter lines 100-205) -/

/-- The event that wins the `select` at the end of the Splitter action:
either a shutdown signal, or a value (possibly nil) on the `runErr`
channel fed by `spl.Start(api-listen)`. -/
inductive SelectEvent where
  | signal
  | runErr (hasErr : Bool)
deriving Repr, DecidableEq

/-- How a function body ends: by terminating the whole process (a
`log.Fatal*` call, which exits with code 1) or by returning a value. -/
inductive ProcResult where
  | exited (code : Nat)
  | returned (err : Option String)
deriving Repr, DecidableEq

/-- Control flow of the Splitter action (lines 100-205).
`NewSplitter` failure hits `log.Fatalw` (exit 1); a metrics-listener
bind failure hits `log.Fatalf` in its goroutine (exit 1); otherwise the
`select` over signal/runErr logs, shuts the splitter down, and the
function returns nil in every case. -/
def splitterAction (newSplitterOk metricsOk : Bool) (ev : SelectEvent) : ProcResult :=
  if !newSplitterOk then .exited 1
  else if !metricsOk then .exited 1
  else match ev with
    | .signal => .returned none
    | .runErr _ => .returned none

/-- Exit code of `run` (lines 39-98): a cli parse failure, or any error
returned by the action through `app.Run`, reaches `log.Fatal` (exit 1);
a nil return exits 0. -/
def runExitCode (parseOk newSplitterOk metricsOk : Bool) (ev : SelectEvent) : Nat :=
  if !parseOk then 1
  else match splitterAction newSplitterOk metricsOk ev with
    | .exited c => c
    | .returned none => 0
    | .returned (some _) => 1

/-! ## Theorems for C1 (exit codes) and C2 (upstream scheme flag) -/

/-- C1 counterexample: when configuration parsing, splitter creation and
the metrics listener all succeed but `spl.Start` fails to bind the
downstream api listener (`runErr` carries an error), the process exits
with code 0 — the claim says every initialization failure, including a
failure to bind the downstream api listener, exits non-zero. -/
theorem api_bind_failure_exits_zero :
    runExitCode true true true (SelectEvent.runErr true) = 0 := by
  rfl

/-- C1 (amended): the process exits 0 if and only if configuration
parsing, splitter (persistence DB) creation, and the metrics-listener
bind all succeed; a downstream api-listener bind failure is handled
like a runtime failure (logged, graceful shutdown, exit 0), and no
event delivered on the run channel produces a non-zero exit. -/
theorem exit_zero_iff_init_ok (parseOk newSplitterOk metricsOk : Bool) (ev : SelectEvent) :
    runExitCode parseOk newSplitterOk metricsOk ev = 0 ↔
      (parseOk = true ∧ newSplitterOk = true ∧ metricsOk = true) := by
  cases parseOk <;> cases newSplitterOk <;> cases metricsOk <;>
    cases ev <;> simp [runExitCode, splitterAction]

/-- C2: the splitter configuration constructed by the Splitter action is
the same whether or not the crawl-insecure-ws flag is set — the flag is
parsed but never read, so the upstream scheme cannot depend on it
through the constructed configuration. -/
theorem config_ignores_insecure_flag
    (splitterHost persistDb cursorFile : String)
    (persistHours : ℚ) (persistBytes : Int) :
    buildSplitterConfig true splitterHost persistDb cursorFile persistHours persistBytes =
      buildSplitterConfig false splitterHost persistDb cursorFile persistHours persistBytes := by
  rfl

/-! ## Theorems for C5 (persist duration), C6 (persistence mode),
C7 (GC period) and C8 (negative persist-bytes) -/

/-- C5 counterexample: for the fractional flag value 1/2^14 hours
(exactly representable as a float64, with the float product also exact),
the configured persist duration is not `persist_hours` times one hour:
the product 219726562.5 ns is truncated to 219726562 whole nanoseconds
by the `time.Duration` conversion. -/
theorem persist_duration_truncates :
    ¬ ((persistDurationOf (1 / 16384) : ℚ) = hourNanos * (1 / 16384)) := by
  intro hEq
  have hval : hourNanos * (1 / 16384 : ℚ) = 439453125 / 2 := by
    norm_num [hourNanos]
  rw [hval] at hEq
  have h2 : (2 : ℚ) * (persistDurationOf (1 / 16384) : ℚ) = 439453125 := by
    rw [hEq]; norm_num
  have h3 : (2 * persistDurationOf (1 / 16384) : ℤ) = 439453125 := by
    exact_mod_cast h2
  omega

/-- Helper: truncation is the identity on integer rationals. -/
theorem ratTrunc_intCast (z : ℤ) : ratTrunc ((z : ℤ) : ℚ) = z := by
  rw [ratTrunc, Rat.num_intCast, Rat.den_intCast]
  simp

/-- C5 (amended): the cache's persist duration is derived from the
configured persist-hours (which may be fractional) by a float64
multiplication with one hour followed by truncation toward zero to a
whole number of nanoseconds; it equals persist-hours times one hour
exactly whenever that product is a whole number z of nanoseconds with
magnitude at most 2^53 (the regime where the double rounding is the
identity, so the exact-product model is faithful), and the default
persist-hours is 168 hours, giving exactly 7 days. -/
theorem persist_duration_spec :
    persistHoursDefault = 168 ∧
    persistDurationOf persistHoursDefault = 604800000000000 ∧
    ∀ (persistHours : ℚ) (z : ℤ), hourNanos * persistHours = (z : ℚ) →
      z.natAbs ≤ 2 ^ 53 →
      persistDurationOf persistHours = z := by
  have hgen : ∀ (persistHours : ℚ) (z : ℤ), hourNanos * persistHours = (z : ℚ) →
      z.natAbs ≤ 2 ^ 53 →
      persistDurationOf persistHours = z := by
    intro h z hz _
    rw [persistDurationOf, hz, ratTrunc_intCast]
  refine ⟨by norm_num [persistHoursDefault], ?_, hgen⟩
  exact hgen persistHoursDefault 604800000000000
    (by norm_num [hourNanos, persistHoursDefault]) (by decide)

/-- Witness for C5's amended theorem at persist-hours = 3/2: the product
is the whole number 5400000000000 of nanoseconds, within the
rounding-free magnitude bound, and the configured duration equals it
exactly. -/
theorem persist_duration_spec_witness :
    hourNanos * (3 / 2) = ((5400000000000 : ℤ) : ℚ) ∧
      (5400000000000 : ℤ).natAbs ≤ 2 ^ 53 ∧
      persistDurationOf (3 / 2) = 5400000000000 :=
  ⟨by norm_num [hourNanos], by decide,
    persist_duration_spec.2.2 (3 / 2) 5400000000000 (by norm_num [hourNanos])
      (by decide)⟩

/-- C6: the splitter is constructed without embedded-store options
(in-memory-only mode) exactly when the persist-db path is the empty
string, and for every non-empty path the options carry that path as the
store's DB path. -/
theorem inmemory_iff_empty_path (crawlInsecureWs : Bool)
    (splitterHost persistDb cursorFile : String)
    (persistHours : ℚ) (persistBytes : Int) :
    ((buildSplitterConfig crawlInsecureWs splitterHost persistDb cursorFile
        persistHours persistBytes).pebbleOptions = none ↔ persistDb = "") ∧
    (buildSplitterConfig crawlInsecureWs splitterHost persistDb cursorFile
        persistHours persistBytes).pebbleOptions.map PebblePersistOptions.dbPath =
      (if persistDb = "" then none else some persistDb) := by
  by_cases h : persistDb = "" <;> simp [buildSplitterConfig, h]

/-- C7: whenever persistence is configured (non-empty persist-db path),
the embedded-store options fix the background GC period at 5 minutes
(300e9 nanoseconds); in in-memory mode there are no options. -/
theorem gc_period_five_minutes (crawlInsecureWs : Bool)
    (splitterHost persistDb cursorFile : String)
    (persistHours : ℚ) (persistBytes : Int) :
    (buildSplitterConfig crawlInsecureWs splitterHost persistDb cursorFile
        persistHours persistBytes).pebbleOptions.map PebblePersistOptions.gcPeriod =
      (if persistDb = "" then none else some (5 * minuteNanos)) ∧
    5 * minuteNanos = 300000000000 := by
  constructor
  · by_cases h : persistDb = "" <;> simp [buildSplitterConfig, h]
  · decide

/-- C8 counterexample: at the most negative signed 64-bit flag value
-2^63, the unsigned conversion yields exactly 2^63, which is not
greater than 2^63 as the claim states. -/
theorem maxBytes_at_int64_min :
    maxBytesOf (-(2 ^ 63)) = 2 ^ 63 ∧ ¬ (2 ^ 63 < maxBytesOf (-(2 ^ 63))) := by
  constructor
  · decide
  · decide

/-- C8 (amended): a negative persist-bytes value is not rejected and
does not disable size eviction: the signed value is converted to an
unsigned 64-bit max-bytes modulo 2^64, so every negative signed 64-bit
input yields max-bytes of at least 2^63 (hence nonzero, so size
eviction is enabled with that cap). -/
theorem negative_persist_bytes_wraps (b : Int)
    (hlo : -(2 ^ 63) ≤ b) (hneg : b < 0) :
    maxBytesOf b = (b + 2 ^ 64).toNat ∧
    2 ^ 63 ≤ maxBytesOf b ∧ maxBytesOf b ≠ 0 := by
  have hmod : b % (2 ^ 64 : Int) = b + 2 ^ 64 := by
    have h1 : (b + 2 ^ 64 * 1) % (2 ^ 64 : Int) = b % (2 ^ 64 : Int) :=
      Int.add_mul_emod_self_left b (2 ^ 64) 1
    have h2 : (0 : Int) ≤ b + 2 ^ 64 := by linarith
    have h3 : b + 2 ^ 64 < (2 ^ 64 : Int) := by linarith
    calc b % (2 ^ 64 : Int) = (b + 2 ^ 64 * 1) % (2 ^ 64 : Int) := h1.symm
      _ = (b + 2 ^ 64) % (2 ^ 64 : Int) := by ring_nf
      _ = b + 2 ^ 64 := Int.emod_eq_of_lt h2 h3
  have hge : (2 ^ 63 : Int) ≤ b + 2 ^ 64 := by linarith
  refine ⟨by rw [maxBytesOf, hmod], ?_, ?_⟩
  · rw [maxBytesOf, hmod]
    have := Int.toNat_le_toNat hge
    simpa using this
  · rw [maxBytesOf, hmod]
    intro h0
    have : b + 2 ^ 64 ≤ 0 := by
      by_contra hc
      push_neg at hc
      have := Int.toNat_of_nonneg (le_of_lt hc)
      omega
    linarith

/-- Witness for C8's amended theorem at persist-bytes = -1: the
converted max-bytes is 2^64 - 1, at least 2^63, and nonzero. -/
theorem negative_persist_bytes_wraps_witness :
    maxBytesOf (-1) = ((-1 : Int) + 2 ^ 64).toNat ∧
    2 ^ 63 ≤ maxBytesOf (-1) ∧ maxBytesOf (-1) ≠ 0 :=
  negative_persist_bytes_wraps (-1) (by decide) (by decide)

end Rainbow

namespace Automod

/-! ## The automod Effects accumulator (src/unnamed/part_001, package engine)

The Go struct holds a mutex only to serialize mutations; each method is
a pure read-modify-write of one field, embedded here as a function from
`Effects` to `Effects`. -/

structure CounterRef where
  name : String
  val : String
  period : Option String := none
deriving Repr, DecidableEq

structure CounterDistinctRef where
  name : String
  bucket : String
  val : String
deriving Repr, DecidableEq

structure ModReport where
  reasonType : String
  comment : String
deriving Repr, DecidableEq

/-- The `Effects` container, minus the mutex. -/
structure Effects where
  counterIncrements : List CounterRef := []
  counterDistinctIncrements : List CounterDistinctRef := []
  accountLabels : List String := []
  accountFlags : List String := []
  accountReports : List ModReport := []
  accountTakedown : Bool := false
  accountEscalate : Bool := false
  accountAcknowledge : Bool := false
  recordLabels : List String := []
  recordFlags : List String := []
  recordReports : List ModReport := []
  recordTakedown : Bool := false
  blobTakedowns : List String := []
  rejectEvent : Bool := false
  notifyServices : List String := []
deriving Repr, DecidableEq

/-- The scan-then-append loop body shared verbatim by AddAccountLabel,
AddAccountFlag, AddRecordLabel, AddRecordFlag, TakedownBlob and Notify:
return unchanged if the value is already present, else append it. -/
def appendDistinct (l : List String) (v : String) : List String :=
  if v ∈ l then l else l ++ [v]

def Effects.AddAccountLabel (e : Effects) (val : String) : Effects :=
  { e with accountLabels := appendDistinct e.accountLabels val }

def Effects.AddAccountFlag (e : Effects) (val : String) : Effects :=
  { e with accountFlags := appendDistinct e.accountFlags val }

def Effects.AddRecordLabel (e : Effects) (val : String) : Effects :=
  { e with recordLabels := appendDistinct e.recordLabels val }

def Effects.AddRecordFlag (e : Effects) (val : String) : Effects :=
  { e with recordFlags := appendDistinct e.recordFlags val }

def Effects.TakedownBlob (e : Effects) (cid : String) : Effects :=
  { e with blobTakedowns := appendDistinct e.blobTakedowns cid }

def Effects.Notify (e : Effects) (srv : String) : Effects :=
  { e with notifyServices := appendDistinct e.notifyServices srv }

/-- One call to one of the six deduplicating Effects methods. -/
inductive EffectCall where
  | addAccountLabel (val : String)
  | addAccountFlag (val : String)
  | addRecordLabel (val : String)
  | addRecordFlag (val : String)
  | takedownBlob (cid : String)
  | notify (srv : String)
deriving Repr, DecidableEq

def applyEffectCall (e : Effects) : EffectCall → Effects
  | .addAccountLabel v => e.AddAccountLabel v
  | .addAccountFlag v => e.AddAccountFlag v
  | .addRecordLabel v => e.AddRecordLabel v
  | .addRecordFlag v => e.AddRecordFlag v
  | .takedownBlob c => e.TakedownBlob c
  | .notify s => e.Notify s

def applyEffectCalls (e : Effects) (cs : List EffectCall) : Effects :=
  cs.foldl applyEffectCall e

/-- The six deduplicated lists are all free of duplicate values. -/
def EffectsNodup (e : Effects) : Prop :=
  e.accountLabels.Nodup ∧ e.accountFlags.Nodup ∧
  e.recordLabels.Nodup ∧ e.recordFlags.Nodup ∧
  e.blobTakedowns.Nodup ∧ e.notifyServices.Nodup

theorem appendDistinct_idem (l : List String) (v : String) :
    appendDistinct (appendDistinct l v) v = appendDistinct l v := by
  by_cases h : v ∈ l <;> simp [appendDistinct, h]

theorem appendDistinct_nodup (l : List String) (v : String) (h : l.Nodup) :
    (appendDistinct l v).Nodup := by
  by_cases hv : v ∈ l
  · simpa [appendDistinct, hv] using h
  · simp only [appendDistinct, hv, if_false]
    exact List.Nodup.append h (List.nodup_singleton v) (by simpa using hv)

theorem applyEffectCall_nodup (e : Effects) (c : EffectCall) (h : EffectsNodup e) :
    EffectsNodup (applyEffectCall e c) := by
  obtain ⟨h1, h2, h3, h4, h5, h6⟩ := h
  cases c <;>
    exact ⟨by first | exact appendDistinct_nodup _ _ h1 | exact h1,
      by first | exact appendDistinct_nodup _ _ h2 | exact h2,
      by first | exact appendDistinct_nodup _ _ h3 | exact h3,
      by first | exact appendDistinct_nodup _ _ h4 | exact h4,
      by first | exact appendDistinct_nodup _ _ h5 | exact h5,
      by first | exact appendDistinct_nodup _ _ h6 | exact h6⟩

theorem applyEffectCalls_nodup (cs : List EffectCall) :
    ∀ e : Effects, EffectsNodup e → EffectsNodup (applyEffectCalls e cs) := by
  induction cs with
  | nil => intro e h; exact h
  | cons c cs ih =>
    intro e h
    exact ih (applyEffectCall e c) (applyEffectCall_nodup e c h)

/-- C9: each of the six deduplicating Effects methods is idempotent
(a repeated call is absorbed, so a value already present leaves the
corresponding list unchanged), and after any sequence of calls starting
from a fresh Effects value each of the six lists contains no duplicate
values. -/
theorem effects_dedup :
    (∀ (e : Effects) (c : EffectCall),
      applyEffectCall (applyEffectCall e c) c = applyEffectCall e c) ∧
    (∀ cs : List EffectCall, EffectsNodup (applyEffectCalls {} cs)) := by
  constructor
  · intro e c
    cases c <;>
      simp [applyEffectCall, Effects.AddAccountLabel, Effects.AddAccountFlag,
        Effects.AddRecordLabel, Effects.AddRecordFlag, Effects.TakedownBlob,
        Effects.Notify, appendDistinct_idem]
  · intro cs
    exact applyEffectCalls_nodup cs {} ⟨List.nodup_nil, List.nodup_nil,
      List.nodup_nil, List.nodup_nil, List.nodup_nil, List.nodup_nil⟩

end Automod

namespace Pds

/-! ## PDS stub GET handlers with a limit query parameter (src/pds/stubs.go)

An absent query parameter reads as the empty string in echo, so each
handler models `c.QueryParam("limit")` as a `String` argument.  A
successful run invokes the underlying operation with the resolved
arguments (the `Except.ok` payload records that call); a failed integer
parse returns the error without invoking it (`Except.error`). -/

def digitVal (c : Char) : Option Nat :=
  if c.toNat ≥ 48 ∧ c.toNat ≤ 57 then some (c.toNat - 48) else none

def parseDigitsAux (acc : Nat) : List Char → Option Nat
  | [] => some acc
  | c :: cs =>
    match digitVal c with
    | some d => parseDigitsAux (10 * acc + d) cs
    | none => none

/-- A nonempty all-digit character run, as a natural number. -/
def parseDigits : List Char → Option Nat
  | [] => none
  | c :: cs =>
    match digitVal c with
    | some d => parseDigitsAux d cs
    | none => none

def int64Max : Int := 2 ^ 63 - 1

def int64Min : Int := -(2 ^ 63)

/-- Go's `strconv.Atoi` on a 64-bit platform: an optional sign followed
by at least one digit, erroring on any other form and on values outside
the signed 64-bit range. -/
def goAtoi (s : String) : Option Int :=
  match s.toList with
  | [] => none
  | '+' :: cs =>
    (parseDigits cs).bind fun n =>
      if (n : Int) ≤ int64Max then some (n : Int) else none
  | '-' :: cs =>
    (parseDigits cs).bind fun n =>
      if int64Min ≤ -(n : Int) then some (-(n : Int)) else none
  | cs =>
    (parseDigits cs).bind fun n =>
      if (n : Int) ≤ int64Max then some (n : Int) else none

/-- Arguments of the underlying getInviteCodes operation. -/
structure GetInviteCodesCall where
  cursor : String
  limit : Int
  sort : String
deriving Repr, DecidableEq

/-- HandleComAtprotoAdminGetInviteCodes (stubs.go lines 119-141):
default limit 100. -/
def HandleComAtprotoAdminGetInviteCodes (cursor limitParam sort : String) :
    Except Unit GetInviteCodesCall :=
  if limitParam ≠ "" then
    match goAtoi limitParam with
    | some limit => .ok { cursor := cursor, limit := limit, sort := sort }
    | none => .error ()
  else
    .ok { cursor := cursor, limit := 100, sort := sort }

/-- Arguments of the underlying queryLabels operation. -/
structure QueryLabelsCall where
  cursor : String
  limit : Int
  sources : List String
  uriPatterns : List String
deriving Repr, DecidableEq

/-- HandleComAtprotoLabelQueryLabels (stubs.go lines 240-266):
default limit 50. -/
def HandleComAtprotoLabelQueryLabels (cursor limitParam : String)
    (sources uriPatterns : List String) : Except Unit QueryLabelsCall :=
  if limitParam ≠ "" then
    match goAtoi limitParam with
    | some limit =>
      .ok { cursor := cursor, limit := limit, sources := sources,
            uriPatterns := uriPatterns }
    | none => .error ()
  else
    .ok { cursor := cursor, limit := 50, sources := sources,
          uriPatterns := uriPatterns }

/-- Arguments of the underlying listBlobs operation. -/
structure ListBlobsCall where
  cursor : String
  did : String
  limit : Int
  since : String
deriving Repr, DecidableEq

/-- HandleComAtprotoSyncListBlobs (stubs.go lines 789-812):
default limit 500. -/
def HandleComAtprotoSyncListBlobs (cursor did limitParam since : String) :
    Except Unit ListBlobsCall :=
  if limitParam ≠ "" then
    match goAtoi limitParam with
    | some limit =>
      .ok { cursor := cursor, did := did, limit := limit, since := since }
    | none => .error ()
  else
    .ok { cursor := cursor, did := did, limit := 500, since := since }

/-- Arguments of the underlying listRepos operation. -/
structure ListReposCall where
  cursor : String
  limit : Int
deriving Repr, DecidableEq

/-- HandleComAtprotoSyncListRepos (stubs.go lines 814-835):
default limit 500. -/
def HandleComAtprotoSyncListRepos (cursor limitParam : String) :
    Except Unit ListReposCall :=
  if limitParam ≠ "" then
    match goAtoi limitParam with
    | some limit => .ok { cursor := cursor, limit := limit }
    | none => .error ()
  else
    .ok { cursor := cursor, limit := 500 }

/-- C10: with an absent (empty) limit parameter each of the four
handlers invokes the underlying operation with its fixed default (100,
50, 500, 500), and for any parameter value that does not parse as an
integer each handler returns the parse error without invoking the
underlying operation. -/
theorem stub_limit_defaults (cursor did sort since : String)
    (sources uriPatterns : List String) (p : String)
    (hp : goAtoi p = none) :
    (Except.map GetInviteCodesCall.limit
        (HandleComAtprotoAdminGetInviteCodes cursor "" sort) = .ok 100) ∧
    (Except.map QueryLabelsCall.limit
        (HandleComAtprotoLabelQueryLabels cursor "" sources uriPatterns) = .ok 50) ∧
    (Except.map ListBlobsCall.limit
        (HandleComAtprotoSyncListBlobs cursor did "" since) = .ok 500) ∧
    (Except.map ListReposCall.limit
        (HandleComAtprotoSyncListRepos cursor "") = .ok 500) ∧
    (p ≠ "" → HandleComAtprotoAdminGetInviteCodes cursor p sort = .error () ∧
      HandleComAtprotoLabelQueryLabels cursor p sources uriPatterns = .error () ∧
      HandleComAtprotoSyncListBlobs cursor did p since = .error () ∧
      HandleComAtprotoSyncListRepos cursor p = .error ()) := by
  refine ⟨rfl, rfl, rfl, rfl, ?_⟩
  intro hne
  refine ⟨?_, ?_, ?_, ?_⟩ <;>
    simp [HandleComAtprotoAdminGetInviteCodes, HandleComAtprotoLabelQueryLabels,
      HandleComAtprotoSyncListBlobs, HandleComAtprotoSyncListRepos, hne, hp]

/-- Witness for C10 at the non-integer parameter value "10x": it fails
Go integer parsing, so every handler returns the parse error, while
absent parameters produce the documented defaults. -/
theorem stub_limit_defaults_witness :
    (Except.map GetInviteCodesCall.limit
        (HandleComAtprotoAdminGetInviteCodes "c" "" "s") = .ok 100) ∧
    (Except.map QueryLabelsCall.limit
        (HandleComAtprotoLabelQueryLabels "c" "" [] []) = .ok 50) ∧
    (Except.map ListBlobsCall.limit
        (HandleComAtprotoSyncListBlobs "c" "d" "" "t") = .ok 500) ∧
    (Except.map ListReposCall.limit
        (HandleComAtprotoSyncListRepos "c" "") = .ok 500) ∧
    (HandleComAtprotoAdminGetInviteCodes "c" "10x" "s" = .error () ∧
      HandleComAtprotoLabelQueryLabels "c" "10x" [] [] = .error () ∧
      HandleComAtprotoSyncListBlobs "c" "d" "10x" "t" = .error () ∧
      HandleComAtprotoSyncListRepos "c" "10x" = .error ()) := by
  have h := stub_limit_defaults "c" "d" "s" "t" [] [] "10x" (by decide)
  exact ⟨h.1, h.2.1, h.2.2.1, h.2.2.2.1, h.2.2.2.2 (by decide)⟩

end Pds

namespace Cache

/-! ## The persistent event cache eviction (modelled from the spec)

The `events.PebblePersist` implementation behind the splitter's cache
is not part of the provided sources; its eviction pass is modelled from
the specification (section 4.1, Eviction policy). -/

/-- Modelled from the spec: a cache entry `(seq, received_at, size,
frame_bytes)` of the persistent event cache (`events.PebblePersist` is
not under the provided sources); the opaque frame bytes are abstracted
to their size. -/
structure CacheEntry where
  seq : Nat
  receivedAt : Int
  size : Nat
deriving Repr, DecidableEq

def totalSize (es : List CacheEntry) : Nat := (es.map CacheEntry.size).sum

/-- Modelled from the spec: the size-eviction step of the GC pass —
"Size eviction (only if max_bytes > 0): while sum(size) > max_bytes,
delete seq_lo and advance" — with entries listed oldest (seq_lo)
first. -/
def sizeEvict (maxBytes : Nat) : List CacheEntry → List CacheEntry
  | [] => []
  | e :: rest =>
    if 0 < maxBytes ∧ maxBytes < totalSize (e :: rest) then sizeEvict maxBytes rest
    else e :: rest

/-- C4: the default persist-bytes flag value is 0 and converts to a
max-bytes of 0; with max-bytes 0 the size-eviction pass removes no
entry whatever the cache contents; and whenever max-bytes is positive
the pass evicts oldest-first until the total size is within the cap. -/
theorem size_eviction_disabled_at_zero :
    Rainbow.persistBytesDefault = 0 ∧
    Rainbow.maxBytesOf Rainbow.persistBytesDefault = 0 ∧
    (∀ es : List CacheEntry, sizeEvict 0 es = es) ∧
    (∀ (maxBytes : Nat) (es : List CacheEntry), 0 < maxBytes →
      totalSize (sizeEvict maxBytes es) ≤ maxBytes) := by
  refine ⟨rfl, by decide, ?_, ?_⟩
  · intro es
    cases es with
    | nil => rfl
    | cons e rest => simp [sizeEvict]
  · intro maxBytes es hpos
    induction es with
    | nil => simp [sizeEvict, totalSize]
    | cons e rest ih =>
      by_cases h : maxBytes < totalSize (e :: rest)
      · simpa [sizeEvict, hpos, h] using ih
      · simp only [sizeEvict, hpos, h, and_false, true_and, if_false]
        omega

/-- Witness for C4's theorem: with max-bytes 1 and a single oversized
entry, the eviction pass leaves a total size within the cap. -/
theorem size_eviction_disabled_at_zero_witness :
    totalSize (sizeEvict 1 [{ seq := 1, receivedAt := 0, size := 2 }]) ≤ 1 :=
  size_eviction_disabled_at_zero.2.2.2 1 [{ seq := 1, receivedAt := 0, size := 2 }]
    (by decide)

end Cache

namespace Subscriber

/-! ## The subscriber replay/live state machine (modelled from the spec)

The splitter's subscriber implementation is not part of the provided
sources.  The state machine is modelled from the specification
(section 4.4): on attach with a cursor inside the cache window the
subscriber atomically subscribes to the live feed into a staging buffer
and opens a cache scan from the cursor; it drains the scan (each
delivered frame advancing `last_sent_seq`), then merges the staging
buffer dropping staged frames with seq at most `last_sent_seq`, then
goes live and delivers each newly admitted frame.  Cache admissions are
contiguous from `seq_hi + 1`, per the cache state invariants of
section 3. -/

inductive Phase where
  | replay
  | live
deriving Repr, DecidableEq

/-- Modelled from the spec: the delivery-relevant subscriber state. -/
structure SubState where
  phase : Phase
  lastSent : Option Nat
  delivered : List Nat
  stagingBuf : List Nat
deriving Repr, DecidableEq

/-- Modelled from the spec: an event observed by one subscriber — a
frame handed over by its cache scan, the scan's exhaustion, or the
dispatcher's broadcast of a newly admitted frame. -/
inductive SubEvent where
  | scanDeliver (seq : Nat)
  | scanDone
  | arrive (seq : Nat)
deriving Repr, DecidableEq

/-- The staging-merge filter: keep a staged frame only when its seq is
beyond the last sent one (everything, when nothing was sent). -/
def afterLastSent (lastSent : Option Nat) (s : Nat) : Bool :=
  match lastSent with
  | none => true
  | some l => decide (l < s)

/-- `last_sent_seq` after appending a batch: the batch's last element,
or the previous value when the batch is empty. -/
def mergeLast (batch : List Nat) (lastSent : Option Nat) : Option Nat :=
  match batch.getLast? with
  | some l => some l
  | none => lastSent

/-- Modelled from the spec: one step of the subscriber state machine. -/
def subStep (st : SubState) : SubEvent → SubState
  | .scanDeliver s =>
    { st with delivered := st.delivered ++ [s], lastSent := some s }
  | .arrive s =>
    match st.phase with
    | .replay => { st with stagingBuf := st.stagingBuf ++ [s] }
    | .live => { st with delivered := st.delivered ++ [s], lastSent := some s }
  | .scanDone =>
    let keep := st.stagingBuf.filter (afterLastSent st.lastSent)
    { phase := .live
      lastSent := mergeLast keep st.lastSent
      delivered := st.delivered ++ keep
      stagingBuf := [] }

def subRun (st : SubState) (evs : List SubEvent) : SubState :=
  evs.foldl subStep st

/-- Subscriber state at attach: replay phase, nothing sent. -/
def initSub : SubState :=
  { phase := .replay, lastSent := none, delivered := [], stagingBuf := [] }

/-- The contiguous seqs held by the cache window [lo, hi]. -/
def cacheSeqs (lo hi : Nat) : List Nat := List.range' lo (hi + 1 - lo)

/-- The cache scan from a cursor: the cached entries with seq at least
the cursor, in ascending order, as scan-handover events. -/
def scanEvents (lo hi cursor : Nat) : List SubEvent :=
  ((cacheSeqs lo hi).filter (fun s => decide (cursor ≤ s))).map SubEvent.scanDeliver

/-- A run of contiguous admission broadcasts starting at a seq. -/
def admitEvents (start k : Nat) : List SubEvent :=
  (List.range' start k).map SubEvent.arrive

/-- An arbitrary interleaving of two event streams, chosen by a list of
booleans (true takes from the first stream); once either stream or the
choice list is exhausted the rest follows deterministically. -/
def interleaveEvents : List Bool → List SubEvent → List SubEvent → List SubEvent
  | [], xs, ys => xs ++ ys
  | _ :: _, [], ys => ys
  | _ :: _, xs, [] => xs
  | b :: bs, x :: xs, y :: ys =>
    if b then x :: interleaveEvents bs xs (y :: ys)
    else y :: interleaveEvents bs (x :: xs) ys

/-- Modelled from the spec: a complete subscriber trace for a cursor
inside the cache window [lo, hi] — the cache scan (snapshotted at
attach) arbitrarily interleaved with the k admissions that race it,
then the scan-exhausted staging merge, then m live admissions. -/
def subscriberTrace (lo hi cursor k m : Nat) (bs : List Bool) : List SubEvent :=
  interleaveEvents bs (scanEvents lo hi cursor) (admitEvents (hi + 1) k)
    ++ [SubEvent.scanDone] ++ admitEvents (hi + 1 + k) m

/-- The seqs of the Message frames a subscriber delivers, in delivery
order. -/
def deliveredSeqs (lo hi cursor k m : Nat) (bs : List Bool) : List Nat :=
  (subRun initSub (subscriberTrace lo hi cursor k m bs)).delivered

/-- Seqs of the scan-handover events of a trace, in order. -/
def scanSeqsOf : List SubEvent → List Nat
  | [] => []
  | .scanDeliver s :: r => s :: scanSeqsOf r
  | .scanDone :: r => scanSeqsOf r
  | .arrive _ :: r => scanSeqsOf r

/-- Seqs of the admission events of a trace, in order. -/
def admitSeqsOf : List SubEvent → List Nat
  | [] => []
  | .scanDeliver _ :: r => admitSeqsOf r
  | .scanDone :: r => admitSeqsOf r
  | .arrive s :: r => s :: admitSeqsOf r

theorem mergeLast_cons (s : Nat) (l : List Nat) (ls : Option Nat) :
    mergeLast (s :: l) ls = mergeLast l (some s) := by
  cases l with
  | nil => simp [mergeLast]
  | cons a r =>
    cases hgl : (a :: r).getLast? with
    | none => simp at hgl
    | some z => simp [mergeLast, List.getLast?_cons_cons, hgl]

/-- A subscriber state still in the replay phase. -/
def replaySt (ls : Option Nat) (d sb : List Nat) : SubState :=
  { phase := .replay, lastSent := ls, delivered := d, stagingBuf := sb }

theorem subRun_cons (st : SubState) (e : SubEvent) (evs : List SubEvent) :
    subRun st (e :: evs) = subRun (subStep st e) evs := rfl

/-- Running any scan/admit events (no scan exhaustion) from a replay
state delivers exactly the scanned seqs and stages exactly the admitted
seqs, in their respective orders. -/
theorem subRun_replay : ∀ evs : List SubEvent, SubEvent.scanDone ∉ evs →
    ∀ (ls : Option Nat) (d sb : List Nat),
      subRun (replaySt ls d sb) evs =
        replaySt (mergeLast (scanSeqsOf evs) ls)
          (d ++ scanSeqsOf evs) (sb ++ admitSeqsOf evs) := by
  intro evs
  induction evs with
  | nil => intro _ ls d sb; simp [subRun, scanSeqsOf, admitSeqsOf, mergeLast]
  | cons e r ih =>
    intro hnd ls d sb
    have hr : SubEvent.scanDone ∉ r := fun h => hnd (List.mem_cons_of_mem _ h)
    cases e with
    | scanDeliver s =>
      have step : subStep (replaySt ls d sb) (SubEvent.scanDeliver s) =
          replaySt (some s) (d ++ [s]) sb := rfl
      rw [subRun_cons, step, ih hr (some s) (d ++ [s]) sb]
      simp [scanSeqsOf, admitSeqsOf, mergeLast_cons, replaySt]
    | arrive s =>
      have step : subStep (replaySt ls d sb) (SubEvent.arrive s) =
          replaySt ls d (sb ++ [s]) := rfl
      rw [subRun_cons, step, ih hr ls d (sb ++ [s])]
      simp [scanSeqsOf, admitSeqsOf, replaySt]
    | scanDone =>
      exact absurd (List.mem_cons_self _ _) hnd

theorem scanSeqsOf_append (a b : List SubEvent) :
    scanSeqsOf (a ++ b) = scanSeqsOf a ++ scanSeqsOf b := by
  induction a with
  | nil => rfl
  | cons e r ih => cases e <;> simp [scanSeqsOf, ih]

theorem admitSeqsOf_append (a b : List SubEvent) :
    admitSeqsOf (a ++ b) = admitSeqsOf a ++ admitSeqsOf b := by
  induction a with
  | nil => rfl
  | cons e r ih => cases e <;> simp [admitSeqsOf, ih]

theorem scanSeqsOf_map_scan (xs : List Nat) :
    scanSeqsOf (xs.map SubEvent.scanDeliver) = xs := by
  induction xs with
  | nil => rfl
  | cons x r ih => simp [scanSeqsOf, ih]

theorem scanSeqsOf_map_arrive (ys : List Nat) :
    scanSeqsOf (ys.map SubEvent.arrive) = [] := by
  induction ys with
  | nil => rfl
  | cons y r ih => simp [scanSeqsOf, ih]

theorem admitSeqsOf_map_scan (xs : List Nat) :
    admitSeqsOf (xs.map SubEvent.scanDeliver) = [] := by
  induction xs with
  | nil => rfl
  | cons x r ih => simp [admitSeqsOf, ih]

theorem admitSeqsOf_map_arrive (ys : List Nat) :
    admitSeqsOf (ys.map SubEvent.arrive) = ys := by
  induction ys with
  | nil => rfl
  | cons y r ih => simp [admitSeqsOf, ih]

theorem scanDone_not_mem_map_scan (xs : List Nat) :
    SubEvent.scanDone ∉ xs.map SubEvent.scanDeliver := by
  intro h
  rcases List.mem_map.mp h with ⟨x, _, hx⟩
  cases hx

theorem scanDone_not_mem_map_arrive (ys : List Nat) :
    SubEvent.scanDone ∉ ys.map SubEvent.arrive := by
  intro h
  rcases List.mem_map.mp h with ⟨y, _, hy⟩
  cases hy

/-- Any interleaving of scan handovers and admissions keeps each
stream's seqs in order and contains no scan-exhaustion event. -/
theorem interleave_split : ∀ (bs : List Bool) (xs ys : List Nat),
    scanSeqsOf (interleaveEvents bs (xs.map SubEvent.scanDeliver)
        (ys.map SubEvent.arrive)) = xs ∧
    admitSeqsOf (interleaveEvents bs (xs.map SubEvent.scanDeliver)
        (ys.map SubEvent.arrive)) = ys ∧
    SubEvent.scanDone ∉ interleaveEvents bs (xs.map SubEvent.scanDeliver)
        (ys.map SubEvent.arrive) := by
  intro bs
  induction bs with
  | nil =>
    intro xs ys
    refine ⟨?_, ?_, ?_⟩
    · simp [interleaveEvents, scanSeqsOf_append,
        scanSeqsOf_map_scan, scanSeqsOf_map_arrive]
    · simp [interleaveEvents, admitSeqsOf_append,
        admitSeqsOf_map_scan, admitSeqsOf_map_arrive]
    · simp only [interleaveEvents, List.mem_append]
      rintro (h | h)
      · exact scanDone_not_mem_map_scan xs h
      · exact scanDone_not_mem_map_arrive ys h
  | cons b bs ih =>
    intro xs ys
    cases xs with
    | nil =>
      exact ⟨by simp [interleaveEvents, scanSeqsOf_map_arrive],
        by simp [interleaveEvents, admitSeqsOf_map_arrive],
        by simp [interleaveEvents]⟩
    | cons x xs =>
      cases ys with
      | nil =>
        refine ⟨?_, ?_, ?_⟩
        · simp [interleaveEvents, scanSeqsOf, scanSeqsOf_map_scan]
        · simp [interleaveEvents, admitSeqsOf, admitSeqsOf_map_scan]
        · simp [interleaveEvents]
      | cons y ys =>
        obtain ⟨ihs, iha, ihn⟩ := ih (x :: xs) ys
        obtain ⟨ihs2, iha2, ihn2⟩ := ih xs (y :: ys)
        simp only [List.map_cons] at ihs iha ihn ihs2 iha2 ihn2
        cases b with
        | true =>
          refine ⟨?_, ?_, ?_⟩ <;>
            simp [interleaveEvents, scanSeqsOf, admitSeqsOf, ihs2, iha2, ihn2]
        | false =>
          refine ⟨?_, ?_, ?_⟩ <;>
            simp [interleaveEvents, scanSeqsOf, admitSeqsOf, ihs, iha, ihn]

theorem subRun_append (st : SubState) (a b : List SubEvent) :
    subRun st (a ++ b) = subRun (subRun st a) b :=
  List.foldl_append subStep st a b

/-- Replaying an interleaved trace from attach: the scan seqs are
delivered, the admissions are staged. -/
theorem subRun_interleave (bs : List Bool) (xs ys : List Nat) :
    subRun initSub (interleaveEvents bs (xs.map SubEvent.scanDeliver)
        (ys.map SubEvent.arrive)) =
      replaySt (mergeLast xs none) xs ys := by
  obtain ⟨h1, h2, h3⟩ := interleave_split bs xs ys
  have hinit : initSub = replaySt none [] [] := rfl
  rw [hinit, subRun_replay _ h3, h1, h2]
  simp [replaySt]

/-- A subscriber state in the live phase. -/
def liveSt (ls : Option Nat) (d sb : List Nat) : SubState :=
  { phase := .live, lastSent := ls, delivered := d, stagingBuf := sb }

/-- In the live phase each admitted frame is delivered immediately. -/
theorem subRun_live : ∀ (zs : List Nat) (ls : Option Nat) (d sb : List Nat),
    subRun (liveSt ls d sb) (zs.map SubEvent.arrive) =
      liveSt (mergeLast zs ls) (d ++ zs) sb := by
  intro zs
  induction zs with
  | nil => intro ls d sb; simp [subRun, mergeLast]
  | cons z r ih =>
    intro ls d sb
    have step : subStep (liveSt ls d sb) (SubEvent.arrive z) =
        liveSt (some z) (d ++ [z]) sb := rfl
    rw [List.map_cons, subRun_cons, step, ih (some z) (d ++ [z]) sb]
    simp [liveSt, mergeLast_cons]

/-- Scan exhaustion: merge the staging buffer past the last sent seq,
deliver it, and go live. -/
theorem subStep_scanDone (ls : Option Nat) (d sb : List Nat) :
    subStep (replaySt ls d sb) SubEvent.scanDone =
      liveSt (mergeLast (sb.filter (afterLastSent ls)) ls)
        (d ++ sb.filter (afterLastSent ls)) [] := rfl

/-- The cache scan from a cursor inside the window is exactly the
cached seqs from the cursor up to the tail. -/
theorem scanEvents_eq (lo hi cursor : Nat) (h1 : lo ≤ cursor) (h2 : cursor ≤ hi + 1) :
    scanEvents lo hi cursor =
      (List.range' cursor (hi + 1 - cursor)).map SubEvent.scanDeliver := by
  have hn : hi + 1 - cursor + (cursor - lo) = hi + 1 - lo := by omega
  have hc : lo + (cursor - lo) = cursor := by omega
  have hsplit : cacheSeqs lo hi =
      List.range' lo (cursor - lo) ++ List.range' cursor (hi + 1 - cursor) := by
    rw [cacheSeqs, ← hn, ← List.range'_append_1, hc]
  rw [scanEvents, hsplit, List.filter_append]
  have hfirst : (List.range' lo (cursor - lo)).filter (fun s => decide (cursor ≤ s)) = [] := by
    rw [List.filter_eq_nil_iff]
    intro a ha
    have hb := List.mem_range'_1.mp ha
    simp only [decide_eq_true_eq]
    omega
  have hsecond : (List.range' cursor (hi + 1 - cursor)).filter
      (fun s => decide (cursor ≤ s)) = List.range' cursor (hi + 1 - cursor) := by
    rw [List.filter_eq_self]
    intro a ha
    have hb := List.mem_range'_1.mp ha
    simp only [decide_eq_true_eq]
    omega
  rw [hfirst, hsecond, List.nil_append]

theorem getLast?_range' (s n : Nat) (h : 0 < n) :
    (List.range' s n).getLast? = some (s + n - 1) := by
  cases n with
  | zero => omega
  | succ m =>
    rw [List.range'_concat, List.getLast?_concat]
    congr 1
    omega

theorem range'_triple (cursor n1 k m a b : Nat)
    (ha : a = cursor + n1) (hb : b = cursor + n1 + k) :
    (List.range' cursor n1 ++ List.range' a k) ++ List.range' b m =
      List.range' cursor (n1 + (k + m)) := by
  subst ha hb
  rw [List.range'_append_1]
  rw [show cursor + n1 + k = cursor + (k + n1) from by omega]
  rw [List.range'_append_1]
  congr 1
  omega

/-- With a cursor inside the cache window, the delivered seqs are the
contiguous range from the cursor through the cached tail, the k
admissions racing the replay, and the m live admissions, in order. -/
theorem deliveredSeqs_eq (lo hi cursor k m : Nat) (h1 : lo ≤ cursor) (h2 : cursor ≤ hi)
    (bs : List Bool) :
    deliveredSeqs lo hi cursor k m bs =
      List.range' cursor (hi + 1 - cursor + (k + m)) := by
  have hml : mergeLast (List.range' cursor (hi + 1 - cursor)) none = some hi := by
    have hgl : (List.range' cursor (hi + 1 - cursor)).getLast? =
        some (cursor + (hi + 1 - cursor) - 1) := getLast?_range' _ _ (by omega)
    simp only [mergeLast, hgl]
    congr 1
    omega
  have hkeep : (List.range' (hi + 1) k).filter (afterLastSent (some hi)) =
      List.range' (hi + 1) k := by
    rw [List.filter_eq_self]
    intro a ha
    have hb := List.mem_range'_1.mp ha
    simp only [afterLastSent, decide_eq_true_eq]
    omega
  have hsingle : ∀ st : SubState, subRun st [SubEvent.scanDone] =
      subStep st SubEvent.scanDone := fun _ => rfl
  rw [deliveredSeqs, subscriberTrace, scanEvents_eq lo hi cursor h1 (by omega)]
  rw [admitEvents, admitEvents, subRun_append, subRun_append, subRun_interleave,
    hsingle, hml, subStep_scanDone, hkeep, subRun_live]
  simp only [liveSt]
  exact range'_triple cursor (hi + 1 - cursor) k m (hi + 1) (hi + 1 + k)
    (by omega) (by omega)

/-- The per-subscriber delivery ordering guarantee: frame seqs determine
delivery order (earlier iff smaller), there are no duplicates, and the
range between the first and last delivered seq has no gap. -/
def deliveryOrdered (d : List Nat) : Prop :=
  (∀ (i j : Nat) (hi2 : i < d.length) (hj : j < d.length),
    i < j ↔ d.get ⟨i, hi2⟩ < d.get ⟨j, hj⟩) ∧
  d.Nodup ∧
  (∀ f l x : Nat, d.head? = some f → d.getLast? = some l →
    f ≤ x → x ≤ l → x ∈ d)

theorem deliveryOrdered_range' (s n : Nat) : deliveryOrdered (List.range' s n) := by
  refine ⟨?_, List.nodup_range' s n, ?_⟩
  · intro i j hi2 hj
    simp only [List.get_eq_getElem, List.getElem_range']
    omega
  · intro f l x hf hl hfx hxl
    cases n with
    | zero => simp at hf
    | succ m =>
      have hhead : (List.range' s (m + 1)).head? = some s := by
        rw [List.range'_succ]
        rfl
      rw [hhead] at hf
      have hfs := Option.some.inj hf
      rw [getLast?_range' s (m + 1) (by omega)] at hl
      have hls := Option.some.inj hl
      exact List.mem_range'_1.mpr ⟨by omega, by omega⟩

/-- C3: for every subscriber whose cursor lay inside the cache window
[lo, hi] at attach time, whatever interleaving bs its replay raced
against, the delivered Message seqs are exactly the contiguous range
from the cursor through all admitted frames, and the delivery is
ordered: a frame with smaller seq was delivered earlier (and
conversely), with no duplicates and no gaps between the first and last
delivered seq. -/
theorem subscriber_delivery_ordered (lo hi cursor k m : Nat) (bs : List Bool)
    (hcur : lo ≤ cursor) (hwin : cursor ≤ hi) :
    deliveredSeqs lo hi cursor k m bs =
      List.range' cursor (hi + 1 - cursor + (k + m)) ∧
    deliveryOrdered (deliveredSeqs lo hi cursor k m bs) := by
  have he := deliveredSeqs_eq lo hi cursor k m hcur hwin bs
  refine ⟨he, ?_⟩
  rw [he]
  exact deliveryOrdered_range' _ _

/-- Witness for C3's theorem: a subscriber attached at cursor 2 into the
window [1, 3], with 2 admissions racing its replay and 1 live
admission, delivers exactly seqs 2..6 in order. -/
theorem subscriber_delivery_ordered_witness :
    deliveredSeqs 1 3 2 2 1 [true, false] = List.range' 2 (3 + 1 - 2 + (2 + 1)) ∧
    deliveryOrdered (deliveredSeqs 1 3 2 2 1 [true, false]) :=
  subscriber_delivery_ordered 1 3 2 2 1 [true, false] (by decide) (by decide)

end Subscriber
